import Mathlib

/-!
Shallow embedding of the fake.help versioned synchronization core
(src/helpFormatter.js, src/utils.js, the TTL cache class) in Lean 4,
together with theorems settling the specification claims.

JavaScript conventions used throughout the embedding:
* machine arithmetic of the bitwise operators is `ToInt32`/`ToUint32`,
  modelled on `Int` with explicit reduction mod 2^32;
* `undefined`/`null` string-valued fields are modelled as `Option String`
  with `none`; where a version string travels through an API that treats
  the empty string and `undefined` alike (both falsy), the empty string
  stands for the absent value and the comment at the definition says so;
* a thrown exception is an `Except.error` carrying the message.
-/

namespace FakeHelp

/-! ### utils.js: createHash / generateGuildId / generatePlayerId -/

/-- JS `ToUint32`: the value reduced into `[0, 2^32)`. -/
def toUint32 (n : Int) : Nat := (n.emod 4294967296).toNat

/-- JS `ToInt32`: the value reduced into `[-2^31, 2^31)`. -/
def toInt32 (n : Int) : Int :=
  let m := n.emod 4294967296
  if m < 2147483648 then m else m - 4294967296

/-- JS `a ^ b`: both operands pass through `ToInt32`, xor of the 32-bit
patterns, reinterpreted signed. -/
def jsXor (a b : Int) : Int :=
  toInt32 (Int.ofNat (Nat.xor (toUint32 a) (toUint32 b)))

/-- JS `a << k`: `ToInt32` of the shifted value; only the value mod 2^32
matters, so multiplying first is equivalent. -/
def jsShl (a : Int) (k : Nat) : Int := toInt32 (a * (2 : Int) ^ k)

/-- UTF-16 code units of a string, as JS `charCodeAt` enumerates them:
BMP scalars are one unit, supplementary scalars a surrogate pair. -/
def utf16Units (s : String) : List Nat :=
  s.data.flatMap (fun c =>
    let n := c.toNat
    if n < 65536 then [n]
    else [55296 + (n - 65536) / 1024, 56320 + (n - 65536) % 1024])

/-- One iteration of the loop in utils.js `createHash` (lines 9-12):
`hval ^= code & 0xFF; hval += (hval<<1)+(hval<<4)+(hval<<7)+(hval<<8)+(hval<<24)`.
The additions are exact number additions (no 32-bit wrap there); the xor and
shifts wrap. -/
def hashStep (hval : Int) (code : Nat) : Int :=
  let h := jsXor hval (Int.ofNat (code % 256))
  h + jsShl h 1 + jsShl h 4 + jsShl h 7 + jsShl h 8 + jsShl h 24

/-- The unsigned 32-bit value `hval >>> 0` produced by utils.js `createHash`. -/
def hashValue (str : String) : Nat :=
  toUint32 ((utf16Units str).foldl hashStep 2166136261)

/-- utils.js `createHash` (lines 6-15): the decimal string of the hash. -/
def createHash (str : String) : String := Nat.repr (hashValue str)

/-- utils.js `generateGuildId` (lines 17-20). A `none` argument models a
falsy (null/undefined) `guildId`; `!guildId` is also true for `""`. -/
def generateGuildId (guildId : Option String) : String :=
  match guildId with
  | none => ""
  | some s => if s = "" then "" else "G" ++ createHash s

/-- utils.js `generatePlayerId` (lines 22-25). -/
def generatePlayerId (playerId : Option String) : String :=
  match playerId with
  | none => ""
  | some s => if s = "" then "" else "P" ++ createHash s

/-! ### helpFormatter.js: localization line parsing -/

/-- JS falsy test for the two halves produced by the destructuring in
`processLocalizationLine`: `undefined` (missing) and `""` are both falsy. -/
def strFalsy : Option String → Bool
  | none => true
  | some s => s = ""

/-- JS `str.split(sep)` for a one-character separator: empty pieces are
kept, and the empty string splits to `[""]`. -/
def charsSplit (sep : Char) : List Char → List (List Char)
  | [] => [[]]
  | c :: rest =>
      let r := charsSplit sep rest
      if c = sep then [] :: r
      else
        match r with
        | g :: gs => (c :: g) :: gs
        | [] => [[c]]

/-- JS `str.trim()`: strip leading and trailing whitespace. -/
def trimChars (l : List Char) : List Char :=
  ((l.dropWhile Char.isWhitespace).reverse.dropWhile Char.isWhitespace).reverse

/-- helpFormatter.js `processLocalizationLine` (lines 36-41):
skip `#`-comments, split on `|`, trim both halves, skip when either half
is falsy; otherwise yield the `(key, value)` pair. -/
def processLocalizationLine (line : String) : Option (String × String) :=
  match line.data with
  | '#' :: _ => none
  | _ =>
      let parts := (charsSplit '|' line.data).map
        (fun cs => String.mk (trimChars cs))
      let key := parts.get? 0
      let val := parts.get? 1
      if strFalsy key || strFalsy val then none
      else some ((key.getD ""), (val.getD ""))

/-- Association-list upsert, modelling assignment to a JS object key
(`langMap[key] = val` keeps one binding per key, updated in place). -/
def aset {α : Type} : List (String × α) → String → α → List (String × α)
  | [], k, v => [(k, v)]
  | (k', v') :: rest, k, v =>
      if k' = k then (k', v) :: rest else (k', v') :: aset rest k v

/-- Association-list lookup, modelling JS object property read. -/
def alookup {α : Type} : List (String × α) → String → Option α
  | [], _ => none
  | (k', v') :: rest, k => if k' = k then some v' else alookup rest k

/-- Association-list delete, modelling JS `delete obj[key]`: the key's
binding is removed (object keys are unique, so dropping every pair with
that key is the same operation). -/
def aremove {α : Type} (m : List (String × α)) (key : String) :
    List (String × α) :=
  m.filter (fun p => p.1 != key)

/-- A per-language localization map, a JS object keyed by localization key. -/
abbrev LangMap := List (String × String)

/-- helpFormatter.js `processStreamByLine` (lines 43-65): the compressed
archive path streams the file and feeds each line to
`processLocalizationLine`, inserting each produced pair into the map. -/
def processStreamByLine (lines : List String) : LangMap :=
  lines.foldl (fun langMap line =>
    match processLocalizationLine line with
    | some (key, val) => aset langMap key val
    | none => langMap) []

/-- helpFormatter.js `processFileContentsByLine` (lines 67-81), the
pre-expanded path: the content is split on newlines and each line parsed.
Line 76 stores the entry as `langMap[localizationMap[key]] = val`, but
`localizationMap` is an identifier that is never defined anywhere in the
repository, so evaluating it on the first well-formed line throws a
`ReferenceError`; no entry is ever recorded before that throw. -/
def processFileContentsByLine (content : String) : Except String LangMap :=
  go ((charsSplit '\n' content.data).map String.mk)
where
  /-- Scans lines in order until the first well-formed one throws. -/
  go : List String → Except String LangMap
    | [] => .ok []
    | line :: rest =>
        match processLocalizationLine line with
        | some _ => .error "ReferenceError: localizationMap is not defined"
        | none => go rest

/-! ### helpFormatter.js: execInParallel -/

/-- The success and error accumulators built by the `eachLimit` iteratee in
`execInParallel` (lines 448-453): every input is attempted exactly once, a
success is pushed onto `responses`, a failure onto `errors`.  In this
single-threaded embedding the per-item operation is a deterministic
function, so completion order coincides with input order for every
concurrency limit. -/
def execGather {α β ε : Type} (inputs : List α) (op : α → Except ε β) :
    List β × List ε :=
  match inputs with
  | [] => ([], [])
  | a :: rest =>
      let (rs, es) := execGather rest op
      match op a with
      | .ok b => (b :: rs, es)
      | .error e => (rs, e :: es)

/-- helpFormatter.js `execInParallel` (lines 438-465).  The iteratee catches
its own errors, so the `eachLimit` completion callback never reports one;
after the batch, an empty `responses` with a non-empty `errors` throws the
first recorded error, otherwise `responses` is returned (also when both are
empty).  The `concurrency` argument bounds in-flight I/O in the source and
does not change the deterministic outcome here. -/
def execInParallel {α β ε : Type} (inputs : List α) (concurrency : Nat)
    (op : α → Except ε β) : Except ε (List β) :=
  let (responses, errors) := execGather inputs op
  match responses, errors with
  | [], e :: _ => .error e
  | rs, _ => .ok rs

/-! ### helpFormatter.js: the self-healing read path getDataFile -/

/-- A persisted `VersionedDocument`: `{ version, data }`. -/
structure VDoc (δ : Type) where
  version : String
  data : δ
  deriving Repr, DecidableEq

/-- Outcome of one `readFile` call: the parsed document, or a throw. -/
inductive ReadRes (δ : Type)
  | ok (doc : VDoc δ)
  | err (e : String)
  deriving Repr, DecidableEq

/-- The value `getDataFile` can return: the initial `{}`, the raw
still-wrapped document (the fall-through on a stale retry), or the
unwrapped `response.data`. -/
inductive GDFResp (δ : Type)
  | emptyObj
  | doc (d : VDoc δ)
  | data (d : δ)
  deriving Repr, DecidableEq

/-- helpFormatter.js `getDataFile` (lines 906-936) instantiated at
`retry = true` — the recursive call made after the forced update.  A read
failure now throws `Unable to load game data collection`; a read that
succeeds with a mismatched version sets `updateNeeded`, but the
`updateNeeded && !retry` guard is false, so the function falls through and
returns `response`, which still holds the whole document (the
`response = response.data` unwrapping only happens on a version match). -/
def getDataFileRetry {δ : Type} (expectedVersion : String)
    (read2 : ReadRes δ) : Except String (GDFResp δ) :=
  match read2 with
  | .err _ => .error "Unable to load game data collection"
  | .ok doc =>
      if expectedVersion ≠ doc.version then .ok (.doc doc)
      else .ok (.data doc.data)

/-- helpFormatter.js `getDataFile` (lines 906-936) at `retry = false`, the
entry point.  `read1` is the first `readFile` outcome, `updateCheckForce`
the outcome of the forced `updateCheck(null, null, true)`, `read2` the
`readFile` outcome on the retry.  On the first attempt a read failure or a
version mismatch sets `updateNeeded`, triggering exactly one forced
synchronization followed by the `retry = true` call. -/
def getDataFile {δ : Type} (expectedVersion : String) (read1 : ReadRes δ)
    (updateCheckForce : Except String Unit) (read2 : ReadRes δ) :
    Except String (GDFResp δ) :=
  let firstAttempt : Bool × GDFResp δ :=
    match read1 with
    | .ok doc =>
        if expectedVersion ≠ doc.version then (true, .doc doc)
        else (false, .data doc.data)
    | .err _ => (true, .emptyObj)
  let updateNeeded := firstAttempt.1
  let response := firstAttempt.2
  if updateNeeded then
    match updateCheckForce with
    | .error e => .error e
    | .ok _ => getDataFileRetry expectedVersion read2
  else .ok response

/-! ### helpFormatter.js: the versioned synchronization engine

State and persisted writes are explicit.  Each engine function returns
`(outcome, new VersionState, list of file writes performed)`; the write
list is the trace of `writeFile` calls (successful ones), in order. -/

/-- The in-memory `this._version` record: `game` is `versionString` of the
game-data track, `gameFiles` the recorded collection list, `language` the
localization track's version.  All start `undefined` (the constructor sets
`this._version = {}`). -/
structure VState where
  game : Option String := none
  gameFiles : Option (List String) := none
  language : Option String := none
  deriving Repr, DecidableEq

/-- One successful `writeFile` call, tagged by which kind of document the
engine wrote.  Collection payloads are raw upstream record lists
(`List Nat` stands for the opaque records). -/
inductive FW
  | coll (name : String) (version : String) (data : List Nat)
  | gdv (versionString : String) (files : List String)
  | lookupTable (name : String)
  | lang (name : String) (version : String) (entries : LangMap)
  | locv (versionString : String)
  deriving Repr, DecidableEq

/-- The file name a write goes to (utils.js `writeFile` appends `.json`). -/
def fwName : FW → String
  | .coll n _ _ => n
  | .gdv _ _ => "gameDataVersion"
  | .lookupTable n => n
  | .lang n _ _ => n
  | .locv _ => "localizationVersion"

/-- Per-language file content in the localization loop: a zipped-bundle
entry is streamed as lines, a pre-expanded entry is a raw string that the
loop splits itself. -/
abbrev LocContent := Sum (List String) String

/-- Environment of the engine: configuration derived by the constructor
(lines 84-102) plus the external collaborators (upstream client,
persistence success, the excluded record-reshaping function `conv`, and
the outcome of the five self-healing reads done by the lookup rebuild). -/
structure SyncEnv where
  useSegments : Bool
  noLocalization : Bool
  useUnzip : Bool
  languages : List String
  getGameDataWhole : String → Except String (List (String × List Nat))
  conv : List Nat → List Nat
  writeOk : String → Bool
  readColl : String → Except String Unit
  getLocBundleZip : String → Except String (List (String × List String))
  getLocBundleUnzip : String → Except String (List (String × String))
  getMetaData : Except String (String × String)

/-- helpFormatter.js `isStringEqual` (lines 32-34): both operands truthy
(non-null, non-empty) and `localeCompare` equal — modelled as string
equality on version identifiers. -/
def isStringEqual : Option String → Option String → Bool
  | some a, some b => a ≠ "" && b ≠ "" && a = b
  | _, _ => false

/-- helpFormatter.js `gameDataNeedsUpdate` (lines 226-228). -/
def gameDataNeedsUpdate (st : VState) (versionString : String)
    (force : Bool) : Bool :=
  force || !(isStringEqual st.game (some versionString))

/-- helpFormatter.js `localizationNeedsUpdate` (lines 230-232). -/
def localizationNeedsUpdate (st : VState) (versionString : String)
    (force : Bool) : Bool :=
  force || !(isStringEqual st.language (some versionString))

/-- One `writeFile` call against the persistence oracle: a failed write
throws, a successful one appends to the trace. -/
def writeFileM (env : SyncEnv) (fw : FW) : Except String Unit × List FW :=
  if env.writeOk (fwName fw) then (.ok (), [fw])
  else (.error ("Persistence error writing " ++ fwName fw), [])

/-- The whole-mode collection loop of `updateGameData` (lines 266-272):
every entry of the upstream response is written — there is no empty-list
filter in this branch (that filter exists only in the segmented branch,
line 252) — and its key is pushed onto `files`. -/
def writeCollsWhole (env : SyncEnv) (v : String) :
    List (String × List Nat) → Except String (List String) × List FW
  | [] => (.ok [], [])
  | (key, val) :: rest =>
      match writeFileM env (.coll key v (env.conv val)) with
      | (.error e, tr) => (.error e, tr)
      | (.ok _, tr) =>
          match writeCollsWhole env v rest with
          | (.error e, tr2) => (.error e, tr ++ tr2)
          | (.ok files, tr2) => (.ok (key :: files), tr ++ tr2)

/-- The `gameDataListRegex` remap in `getGameData` (lines 886-889):
`(.*)List$` strips one trailing `List` from the collection name. -/
def stripListSuffix (s : String) : String :=
  match s.data.reverse with
  | 't' :: 's' :: 'i' :: 'L' :: rest => String.mk rest.reverse
  | _ => s

/-- helpFormatter.js `getGameData` (lines 878-904) as invoked by the
lookup rebuild: strip a trailing `List`, reject a collection that is not
among the recorded game files (a still-undefined list makes the `includes`
call itself throw), then read the collection.  The self-healing
`getDataFile` read is abstracted by the `readColl` oracle reporting its
overall outcome; the post-read `match`/`project`/`localize` reshaping is
the excluded formatting collaborator. -/
def getGameDataRead (env : SyncEnv) (st : VState) (collection : String) :
    Except String Unit :=
  let c := stripListSuffix collection
  match st.gameFiles with
  | none =>
      .error "TypeError: Cannot read properties of undefined (reading includes)"
  | some files =>
      if c ∈ files then env.readColl c
      else .error (collection ++ " is not a valid game data collection")

/-- The five collections `_updateCachedData` reads (lines 940-984). -/
def REBUILD_COLLECTIONS : List String :=
  ["units", "skill", "ability", "equipment", "statMod"]

/-- The four lookup-table files `_updateCachedData` writes (lines 1022-1025). -/
def LOOKUP_TABLE_FILES : List String :=
  ["unitMap", "equipMap", "skillMap", "modMap"]

/-- The read phase of `_updateCachedData`: the five collections in order,
first failure throws. -/
def readAllRebuild (env : SyncEnv) (st : VState) :
    List String → Except String Unit
  | [] => .ok ()
  | c :: rest =>
      match getGameDataRead env st c with
      | .error e => .error e
      | .ok _ => readAllRebuild env st rest

/-- The write phase of `_updateCachedData`: the four lookup tables in
order, first failure throws. -/
def writeLookupTables (env : SyncEnv) :
    List String → Except String Unit × List FW
  | [] => (.ok (), [])
  | n :: rest =>
      match writeFileM env (.lookupTable n) with
      | (.error e, tr) => (.error e, tr)
      | (.ok _, tr) =>
          match writeLookupTables env rest with
          | (r, tr2) => (r, tr ++ tr2)

/-- helpFormatter.js `_updateCachedData` (lines 938-1029): all five reads
first, then the four lookup-table writes; any failure propagates.  The
in-memory map contents are not tracked — no claim mentions them. -/
def updateCachedData (env : SyncEnv) (st : VState) :
    Except String Unit × List FW :=
  match readAllRebuild env st REBUILD_COLLECTIONS with
  | .error e => (.error e, [])
  | .ok _ => writeLookupTables env LOOKUP_TABLE_FILES

/-- helpFormatter.js `updateGameData` (lines 234-286).  In segmented mode
line 241 reads `this.clientStub.getEnums()`, but the constructor only ever
assigns `this.comlinkStub`, so `this.clientStub` is undefined and the
branch throws before fetching anything.  Whole mode fetches all
collections, writes each one (line 266-272), writes the
`gameDataVersion` record, then mutates `this._version.game` and
`this._version.gameFiles` (lines 279-280), and only after that runs the
lookup rebuild (line 282) — a rebuild failure therefore leaves the new
version state in place. -/
def updateGameData (env : SyncEnv) (st : VState) (versionString : String) :
    Except String Unit × VState × List FW :=
  if env.useSegments then
    (.error "TypeError: Cannot read properties of undefined (reading getEnums)",
     st, [])
  else
    match env.getGameDataWhole versionString with
    | .error e => (.error e, st, [])
    | .ok gameData =>
        match writeCollsWhole env versionString gameData with
        | (.error e, tr) => (.error e, st, tr)
        | (.ok files, tr) =>
            match writeFileM env (.gdv versionString files) with
            | (.error e, tr2) => (.error e, st, tr ++ tr2)
            | (.ok _, tr2) =>
                let st' := { st with game := some versionString,
                                     gameFiles := some files }
                match updateCachedData env st' with
                | (.error e, tr3) => (.error e, st', tr ++ tr2 ++ tr3)
                | (.ok _, tr3) => (.ok (), st', tr ++ tr2 ++ tr3)

/-- The `language.replace(/(Loc_)|(.txt)/gi, '')` scan (line 312): at each
position try `Loc_` (case-insensitively; the dot of `.txt` matches any
character), drop a match, otherwise keep the character and move on. -/
def stripLang : List Char → List Char
  | [] => []
  | [c] => [c]
  | [c1, c2] => [c1, c2]
  | [c1, c2, c3] => [c1, c2, c3]
  | c1 :: c2 :: c3 :: c4 :: rest =>
      if (c1 = 'L' ∨ c1 = 'l') ∧ (c2 = 'O' ∨ c2 = 'o') ∧
         (c3 = 'C' ∨ c3 = 'c') ∧ c4 = '_' then
        stripLang rest
      else if (c2 = 'T' ∨ c2 = 't') ∧ (c3 = 'X' ∨ c3 = 'x') ∧
              (c4 = 'T' ∨ c4 = 't') then
        stripLang rest
      else
        c1 :: stripLang (c2 :: c3 :: c4 :: rest)

/-- The language name derived from a bundle entry name (line 312). -/
def stripLangName (s : String) : String := String.mk (stripLang s.data)

/-- The per-language loop of `updateLocalizationBundle` (lines 309-332)
followed by the `localizationVersion` write (line 334).  A language not in
the allow-list is skipped before its content is parsed.  For a retained
language the content is parsed (the pre-expanded path can throw, see
`processFileContentsByLine`), the per-language document is written, and
`this._version.language` is set to the new version — inside the loop, so
a bundle retaining no configured language never records the version. -/
def updateLocalizationLoop (env : SyncEnv) (v : String) :
    List (String × LocContent) → VState → Except String Unit × VState × List FW
  | [], st =>
      (match writeFileM env (.locv v) with
       | (.error e, tr) => (.error e, st, tr)
       | (.ok _, tr) => (.ok (), st, tr))
  | (language, content) :: rest, st =>
      let lang := stripLangName language
      if lang ∈ env.languages then
        match (match content with
               | .inl lines => Except.ok (processStreamByLine lines)
               | .inr raw => processFileContentsByLine raw) with
        | .error e => (.error e, st, [])
        | .ok langMap =>
            match writeFileM env (.lang lang v langMap) with
            | (.error e, tr) => (.error e, st, tr)
            | (.ok _, tr) =>
                match updateLocalizationLoop env v rest
                        { st with language := some v } with
                | (r, st'', tr2) => (r, st'', tr ++ tr2)
      else updateLocalizationLoop env v rest st

/-- helpFormatter.js `updateLocalizationBundle` (lines 288-338): a no-op
when localization is disabled; otherwise fetch the bundle — the zipped
path (`useUnzip = false`) decompresses and streams each contained file as
lines, the pre-expanded path takes the mapping's entries — and run the
per-language loop. -/
def updateLocalizationBundle (env : SyncEnv) (st : VState)
    (versionString : String) : Except String Unit × VState × List FW :=
  if env.noLocalization then (.ok (), st, [])
  else
    let bundle : Except String (List (String × LocContent)) :=
      if env.useUnzip then
        (env.getLocBundleUnzip versionString).map
          (List.map (fun p => (p.1, Sum.inr p.2)))
      else
        (env.getLocBundleZip versionString).map
          (List.map (fun p => (p.1, Sum.inl p.2)))
    match bundle with
    | .error e => (.error e, st, [])
    | .ok entries => updateLocalizationLoop env versionString entries st

/-- helpFormatter.js `updateCheck` (lines 340-361): when forced or when
either version argument is falsy (`""` models the absent value), query the
upstream metadata for both; then run the game-data update when
`gameDataNeedsUpdate` holds or the recorded file list is undefined or
empty (line 348-349), then the localization update when
`localizationNeedsUpdate` holds; return `this._version`. -/
def updateCheck (env : SyncEnv) (st : VState)
    (gameVersion localizationVersion : String) (force : Bool) :
    Except String VState × VState × List FW :=
  let resolved : Except String (String × String) :=
    if force || gameVersion == "" || localizationVersion == "" then env.getMetaData
    else .ok (gameVersion, localizationVersion)
  match resolved with
  | .error e => (.error e, st, [])
  | .ok (g, l) =>
      let filesMissing := match st.gameFiles with
        | none => true
        | some fs => fs.isEmpty
      let step1 :=
        if gameDataNeedsUpdate st g force || filesMissing then
          updateGameData env st g
        else (.ok (), st, [])
      match step1 with
      | (.error e, st1, tr1) => (.error e, st1, tr1)
      | (.ok _, st1, tr1) =>
          match (if localizationNeedsUpdate st1 l force then
                   updateLocalizationBundle env st1 l
                 else (.ok (), st1, [])) with
          | (.error e, st2, tr2) => (.error e, st2, tr1 ++ tr2)
          | (.ok _, st2, tr2) => (.ok st2, st2, tr1 ++ tr2)

/-! ### The TTL cache class (src/unnamed/part_000)

Discrete-event embedding: the single-threaded runtime is a loop that, at
each instant, first fires every due `setTimeout` callback (earliest
deadline first, creation order breaking ties) and then runs the next
external operation.  `V` is the cached value type; JS truthiness of a
value is supplied as `truthy` (an object is always truthy, a number is
truthy iff non-zero). -/

/-- A pending `setTimeout` handle: its id, its deadline, and the key the
scheduled `remove` will receive. -/
structure Timer where
  id : Nat
  fireAt : Nat
  key : String
  deriving Repr, DecidableEq

/-- The `Cache` instance state: `_keyValMap`, `_timeoutMap` (key to the id
of the most recently scheduled timer for that key), the set of pending
timers, and the id supply. -/
structure CacheState (V : Type) where
  keyVal : List (String × V) := []
  timeoutMap : List (String × Nat) := []
  timers : List Timer := []
  nextId : Nat := 0
  deriving Repr, DecidableEq

/-- Cache `get` (lines 8-14): a truthy key whose stored value is truthy. -/
def cacheGet {V : Type} (truthy : V → Bool) (st : CacheState V)
    (key : String) : Option V :=
  if key ≠ "" then
    match alookup st.keyVal key with
    | some v => if truthy v then some v else none
    | none => none
  else none

/-- Cache `scheduleRemoval` (lines 23-27): when the TTL is positive,
create a timer due at `now + ttl` and record its id in `_timeoutMap`
(overwriting the recorded id without cancelling the older timer). -/
def scheduleRemoval {V : Type} (ttl : Nat) (now : Nat) (st : CacheState V)
    (key : String) : CacheState V :=
  if ttl > 0 then
    { st with
      timers := st.timers ++ [⟨st.nextId, now + ttl, key⟩],
      timeoutMap := aset st.timeoutMap key st.nextId,
      nextId := st.nextId + 1 }
  else st

/-- `clearTimeout`: discard the pending timer with that id, if any. -/
def cacheClearTimeout {V : Type} (st : CacheState V) (tid : Nat) :
    CacheState V :=
  { st with timers := st.timers.filter (fun t => t.id ≠ tid) }

/-- Cache `set` (lines 16-21): store only a truthy key and truthy value,
then schedule the removal. -/
def cacheSet {V : Type} (truthy : V → Bool) (ttl now : Nat)
    (st : CacheState V) (key : String) (v : V) : CacheState V :=
  if (key != "") && truthy v then
    scheduleRemoval ttl now { st with keyVal := aset st.keyVal key v } key
  else st

/-- Cache `remove` (lines 36-45): for a truthy key with a truthy stored
value, delete the entry; then clear and forget the timer currently
recorded for the key, if any. -/
def cacheRemove {V : Type} (truthy : V → Bool) (st : CacheState V)
    (key : String) : CacheState V :=
  if (key != "") && (match alookup st.keyVal key with
                     | some v => truthy v
                     | none => false) then
    match alookup st.timeoutMap key with
    | some tid =>
        { st with keyVal := aremove st.keyVal key,
                  timers := st.timers.filter (fun t => t.id ≠ tid),
                  timeoutMap := aremove st.timeoutMap key }
    | none => { st with keyVal := aremove st.keyVal key }
  else st

/-- Cache `extendRemoval` (lines 29-34): cancel the recorded timer for the
key, then schedule afresh. -/
def extendRemoval {V : Type} (ttl now : Nat) (st : CacheState V)
    (key : String) : CacheState V :=
  let st1 := match alookup st.timeoutMap key with
             | some tid => cacheClearTimeout st tid
             | none => st
  scheduleRemoval ttl now st1 key

/-- Choice between a candidate earliest timer and the next one: smaller
`(fireAt, id)` wins (deadline order, creation order breaking ties, as the
runtime fires timers). -/
def pickEarlier : Option Timer → Timer → Option Timer
  | none, t => some t
  | some b, t =>
      if t.fireAt < b.fireAt ∨ (t.fireAt = b.fireAt ∧ t.id < b.id) then some t
      else some b

/-- The earliest due timer at `now`: smallest `(fireAt, id)` among those
with `fireAt ≤ now`. -/
def earliestDue (timers : List Timer) (now : Nat) : Option Timer :=
  (timers.filter (fun t => t.fireAt ≤ now)).foldl pickEarlier none

/-- Fire due timers one at a time until none is due: the fired timer is
consumed and its callback runs `remove(key)` (line 25).  `fuel` bounds the
loop; each step consumes at least the fired timer, so the state's own
timer count is enough fuel. -/
def fireDue {V : Type} (truthy : V → Bool) (fuel : Nat) (st : CacheState V)
    (now : Nat) : CacheState V :=
  match fuel with
  | 0 => st
  | fuel + 1 =>
      match earliestDue st.timers now with
      | none => st
      | some t =>
          fireDue truthy fuel (cacheRemove truthy (cacheClearTimeout st t.id) t.key) now

/-- An external cache operation. -/
inductive CacheOp (V : Type)
  | set (key : String) (v : V)
  | remove (key : String)
  | extend (key : String)

/-- Apply one external operation at instant `now`. -/
def applyCacheOp {V : Type} (truthy : V → Bool) (ttl now : Nat)
    (st : CacheState V) : CacheOp V → CacheState V
  | .set k v => cacheSet truthy ttl now st k v
  | .remove k => cacheRemove truthy st k
  | .extend k => extendRemoval ttl now st k

/-- Run a timestamped schedule of operations from a starting state: before
each operation all timers due at its instant fire, and after the last
operation time advances to `horizon` (firing whatever falls due). -/
def runCache {V : Type} (truthy : V → Bool) (ttl : Nat)
    (st : CacheState V) : List (Nat × CacheOp V) → Nat → CacheState V
  | [], horizon => fireDue truthy st.timers.length st horizon
  | (τ, op) :: rest, horizon =>
      runCache truthy ttl
        (applyCacheOp truthy ttl τ (fireDue truthy st.timers.length st τ) op)
        rest horizon

/-! ### helpFormatter.js: the cached player fetch -/

/-- A raw upstream player record: the two identifiers plus an opaque
payload distinguishing records. -/
structure Player where
  allyCode : String
  playerId : String
  payload : Nat
  deriving Repr, DecidableEq

/-- Players are JS objects, hence always truthy. -/
def playerTruthy : Player → Bool := fun _ => true

/-- helpFormatter.js `_getOrFetchCachedPlayer` (lines 551-566): look the
player up by `allyCode` when that argument is truthy, else by `playerId`;
on a miss fetch from upstream (`fetch` is the `comlinkStub.getPlayer`
outcome; a rejection propagates before any insertion) and insert the
record under both of its own identifiers.  Returns the record, the cache
state, and how many upstream fetches were performed. -/
def getOrFetchCachedPlayer (ttl now : Nat) (st : CacheState Player)
    (allyCode playerId : Option String)
    (fetch : Except String Player) :
    Except String Player × CacheState Player × Nat :=
  let cached : Option Player :=
    match allyCode with
    | some a => if a ≠ "" then cacheGet playerTruthy st a else none
    | none =>
        match playerId with
        | some p => if p ≠ "" then cacheGet playerTruthy st p else none
        | none => none
  match cached with
  | some player => (.ok player, st, 0)
  | none =>
      match fetch with
      | .error e => (.error e, st, 1)
      | .ok player =>
          let st1 := cacheSet playerTruthy ttl now st player.allyCode player
          let st2 := cacheSet playerTruthy ttl now st1 player.playerId player
          (.ok player, st2, 1)

/-! ### helpFormatter.js: the update poller -/

/-- The metadata pair the poller compares: either field may be absent. -/
structure Meta where
  latestGamedataVersion : Option String
  latestLocalizationBundleVersion : Option String
  deriving Repr, DecidableEq

/-- helpFormatter.js `_versionCheck` (lines 159-173): per-track exact
string inequality; a differing track overwrites the baseline field and
marks the pair updated. -/
def versionCheck (oldVersion newVersion : Meta) : Bool × Meta :=
  let (updated1, g) :=
    if !(isStringEqual oldVersion.latestGamedataVersion
          newVersion.latestGamedataVersion) then
      (true, newVersion.latestGamedataVersion)
    else (false, oldVersion.latestGamedataVersion)
  let (updated2, l) :=
    if !(isStringEqual oldVersion.latestLocalizationBundleVersion
          newVersion.latestLocalizationBundleVersion) then
      (true, newVersion.latestLocalizationBundleVersion)
    else (false, oldVersion.latestLocalizationBundleVersion)
  (updated1 || updated2, ⟨g, l⟩)

/-- What one poll tick does to the outside world. -/
inductive TickOutcome
  | completed (notified : Bool)
  | escaped (e : String)
  deriving Repr, DecidableEq

/-- The `HelpFormatter` constructor (lines 84-102) assigns `comlinkStub`,
the concurrency limits, the caches and the maps — it never assigns
`this.logger`, so that field is undefined on every instance. -/
def helpFormatterLogger : Option Unit := none

/-- One tick of the interval handler installed by `_enablePolling`
(lines 186-199): on a successful metadata fetch run
`_handleVersionNotification` (lines 175-184), which notifies the callback
exactly when `_versionCheck` reports a change; on a rejected fetch the
catch block evaluates `self.logger.error(...)` — when `logger` is
undefined that dereference itself throws, and the rejection escapes the
tick instead of being logged and swallowed. -/
def pollTick (logger : Option Unit) (baseline : Meta)
    (getMetaData : Except String Meta) : TickOutcome × Meta :=
  match getMetaData with
  | .ok newVersion =>
      let (updated, baseline') := versionCheck baseline newVersion
      (.completed updated, baseline')
  | .error _ =>
      match logger with
      | some _ => (.completed false, baseline)
      | none =>
          (.escaped "TypeError: Cannot read properties of undefined (reading error)",
           baseline)

/-! ### Spec-side characterizations and invariants used by the theorems -/

/-- The successes of a batch, in input order (the spec's results list). -/
def execSuccesses {α β ε : Type} (inputs : List α) (op : α → Except ε β) :
    List β :=
  inputs.filterMap (fun a =>
    match op a with
    | .ok b => some b
    | .error _ => none)

/-- The failures of a batch, in input order (the spec's errors list). -/
def execFailures {α β ε : Type} (inputs : List α) (op : α → Except ε β) :
    List ε :=
  inputs.filterMap (fun a =>
    match op a with
    | .ok _ => none
    | .error e => some e)

/-- Recognizes a collection-document write in a write trace. -/
def isCollWrite : FW → Bool
  | .coll _ _ _ => true
  | _ => false

/-- Recognizes the extend operation in a cache schedule. -/
def isExtend {V : Type} : CacheOp V → Bool
  | .extend _ => true
  | _ => false

/-- JS truthiness of a number: non-zero. -/
def natTruthy (n : Nat) : Bool := n != 0

/-- Structural well-formedness of a cache state, maintained by every
operation: pending timer ids are fresh-bounded and duplicate-free,
`_timeoutMap` only records ids of timers scheduled for that same key, and
stored entries have truthy keys and values (`set` never stores others). -/
structure CacheWf {V : Type} (truthy : V → Bool) (st : CacheState V) : Prop where
  ids_lt : ∀ t ∈ st.timers, t.id < st.nextId
  ids_nodup : (st.timers.map Timer.id).Nodup
  tmap_lt : ∀ k tid, alookup st.timeoutMap k = some tid → tid < st.nextId
  tmap_key : ∀ k tid, alookup st.timeoutMap k = some tid →
    ∀ t ∈ st.timers, t.id = tid → t.key = k
  vals : ∀ k v, alookup st.keyVal k = some v → truthy v = true ∧ k ≠ ""

/-- Every stored entry is covered by a pending timer for its key that is
due no later than `ttl` after some `set` of exactly that key and value in
the schedule. -/
def Covered {V : Type} (ttl : Nat) (sched : List (Nat × CacheOp V))
    (st : CacheState V) : Prop :=
  ∀ k v, alookup st.keyVal k = some v →
    ∃ t ∈ st.timers, t.key = k ∧
      ∃ τ, (τ, CacheOp.set k v) ∈ sched ∧ t.fireAt ≤ τ + ttl

/-! ### Concrete scenario instances used by counterexamples and witnesses -/

/-- An upstream/persistence environment where everything succeeds: whole
fetch mode, five non-empty collections, a zipped localization bundle whose
single file is French while only `ENG_US` is configured. -/
def envHappy : SyncEnv where
  useSegments := false
  noLocalization := false
  useUnzip := false
  languages := ["ENG_US"]
  getGameDataWhole := fun _ =>
    .ok [("units", [1]), ("skill", [2]), ("ability", [3]),
         ("equipment", [4]), ("statMod", [5])]
  conv := fun l => l
  writeOk := fun _ => true
  readColl := fun _ => .ok ()
  getLocBundleZip := fun _ => .ok [("Loc_FRE_FR.txt", ["X | Y"])]
  getLocBundleUnzip := fun _ => .error "unused"
  getMetaData := .error "unused"

/-- The version state left by a successful first `updateCheck` run against
`envHappy` with game version `1.0.0`: the localization version was never
recorded because the bundle retained no configured language. -/
def stAfterFirst : VState :=
  { game := some "1.0.0",
    gameFiles := some ["units", "skill", "ability", "equipment", "statMod"],
    language := none }

/-- Like `envHappy` but the lookup rebuild's read of `units` fails. -/
def envRebuildFail : SyncEnv :=
  { envHappy with
    readColl := fun c =>
      if c = "units" then .error "ENOENT: units.json unreadable" else .ok (),
    getLocBundleZip := fun _ => .ok [] }

/-- A fully recorded version state preceding a failing update. -/
def stRecorded : VState :=
  { game := some "1.0.0",
    gameFiles := some ["units", "skill", "ability", "equipment", "statMod"],
    language := some "2.0.0" }

/-- Like `envHappy` but upstream returns an empty `skill` collection. -/
def envEmptySkill : SyncEnv :=
  { envHappy with
    getGameDataWhole := fun _ =>
      .ok [("units", [1]), ("skill", []), ("ability", [3]),
           ("equipment", [4]), ("statMod", [5])] }

/-! ## Theorems -/

/-! ### Helper lemmas -/

theorem toUint32_lt (n : Int) : toUint32 n < 4294967296 := by
  unfold toUint32
  have h1 : 0 ≤ n.emod 4294967296 := Int.emod_nonneg n (by norm_num)
  have h2 : n.emod 4294967296 < 4294967296 :=
    Int.emod_lt_of_pos n (by norm_num)
  omega

theorem hashStep_congr (h : Int) (a b : Nat) (hab : a % 256 = b % 256) :
    hashStep h a = hashStep h b := by
  unfold hashStep
  rw [hab]

theorem foldl_hashStep_congr :
    ∀ (l1 l2 : List Nat),
      l1.map (· % 256) = l2.map (· % 256) →
      ∀ h : Int, l1.foldl hashStep h = l2.foldl hashStep h := by
  intro l1
  induction l1 with
  | nil =>
      intro l2 hmap h
      cases l2 with
      | nil => rfl
      | cons b bs => simp at hmap
  | cons a as ih =>
      intro l2 hmap h
      cases l2 with
      | nil => simp at hmap
      | cons b bs =>
          simp only [List.map_cons, List.cons.injEq] at hmap
          simp only [List.foldl_cons]
          rw [hashStep_congr h a b hmap.1]
          exact ih bs hmap.2 _

/-! ### C10: generatePlayerId / generateGuildId -/

/-- C10: `generatePlayerId` and `generateGuildId` are total deterministic
functions: every falsy or empty-string input yields `""`, and every
non-empty string yields `P` (resp. `G`) followed by the decimal
representation of an unsigned 32-bit hash; the hash depends only on the
lower 8 bits of each UTF-16 character code of the input. -/
theorem generateIds_spec :
    (∀ p : Option String, strFalsy p = true →
        generatePlayerId p = "" ∧ generateGuildId p = "") ∧
    (∀ s : String, s ≠ "" →
        generatePlayerId (some s) = "P" ++ Nat.repr (hashValue s) ∧
        generateGuildId (some s) = "G" ++ Nat.repr (hashValue s) ∧
        hashValue s < 4294967296) ∧
    (∀ s t : String,
        (utf16Units s).map (· % 256) = (utf16Units t).map (· % 256) →
        hashValue s = hashValue t) := by
  refine ⟨?_, ?_, ?_⟩
  · intro p hp
    cases p with
    | none => exact ⟨rfl, rfl⟩
    | some s =>
        simp only [strFalsy, decide_eq_true_eq] at hp
        subst hp
        exact ⟨rfl, rfl⟩
  · intro s hs
    refine ⟨?_, ?_, toUint32_lt _⟩
    · simp [generatePlayerId, createHash, hs]
    · simp [generateGuildId, createHash, hs]
  · intro s t hst
    unfold hashValue
    rw [foldl_hashStep_congr _ _ hst]

/-- Witness for C10: the empty string input returns `""`, and the
non-empty input `"a"` returns the prefixed decimal hash. -/
theorem generateIds_spec_witness :
    (strFalsy (some "") = true ∧ generatePlayerId (some "") = "") ∧
    (("a" : String) ≠ "" ∧ generatePlayerId (some "a") = "P3826002220") := by
  refine ⟨⟨by decide, (generateIds_spec.1 (some "") (by decide)).1⟩,
          ⟨by decide, ?_⟩⟩
  have h := (generateIds_spec.2.1 "a" (by decide)).1
  rw [h]
  decide

/-! ### C1: the self-healing read path -/

/-- C1: counter to the claim that `getDataFile` never returns stale data,
when the stored collection is at version `1.0.0` both before and after the
forced synchronization while `1.0.1` is expected, the call does not fail —
it returns the stale, still-wrapped `VersionedDocument` unchanged. -/
theorem getDataFile_returns_stale_doc_after_retry :
    getDataFile "1.0.1" (.ok ⟨"1.0.0", (7 : Nat)⟩) (.ok ())
        (.ok ⟨"1.0.0", (7 : Nat)⟩)
      = .ok (.doc ⟨"1.0.0", 7⟩) ∧ ("1.0.0" : String) ≠ "1.0.1" :=
  ⟨rfl, by decide⟩

/-! ### C7: localization line parsing in both modes -/

/-- C7: on the four scenario lines the streamed (compressed-archive) mode
yields exactly the claimed language map, but the pre-expanded mode throws
a `ReferenceError` on its first well-formed line — line 76 indexes the
never-defined global `localizationMap` — so the two modes do not agree. -/
theorem localization_modes_diverge :
    processStreamByLine
        ["# comment", "KEY_A | Hello", "malformed-line", "KEY_B|World"]
      = [("KEY_A", "Hello"), ("KEY_B", "World")] ∧
    processFileContentsByLine
        "# comment\nKEY_A | Hello\nmalformed-line\nKEY_B|World"
      = .error "ReferenceError: localizationMap is not defined" :=
  ⟨by decide, rfl⟩

/-! ### C8: the poller's per-tick error handling -/

/-- C8: a poll tick whose metadata fetch rejects does not log and swallow
the error — the catch block dereferences the never-assigned `this.logger`,
so a `TypeError` escapes the tick handler; the baseline is unchanged. -/
theorem pollTick_error_escapes :
    pollTick helpFormatterLogger ⟨some "1.0.0", some "2.0.0"⟩
        (.error "upstream unreachable")
      = (.escaped "TypeError: Cannot read properties of undefined (reading error)",
         ⟨some "1.0.0", some "2.0.0"⟩) := rfl

/-! ### C2: the fetch orchestrator -/

theorem execGather_eq {α β ε : Type} (inputs : List α)
    (op : α → Except ε β) :
    execGather inputs op = (execSuccesses inputs op, execFailures inputs op) := by
  induction inputs with
  | nil => rfl
  | cons a rest ih =>
      simp only [execGather, ih, execSuccesses, execFailures,
        List.filterMap_cons]
      cases op a <;> rfl

theorem execLengths {α β ε : Type} (inputs : List α)
    (op : α → Except ε β) :
    (execSuccesses inputs op).length + (execFailures inputs op).length
      = inputs.length := by
  induction inputs with
  | nil => rfl
  | cons a rest ih =>
      simp only [execSuccesses, execFailures, List.filterMap_cons] at ih ⊢
      cases h : op a <;> simp only [h, List.length_cons] <;> omega

/-- C2: for every input list, concurrency limit of at least one, and
per-item operation, `execInParallel` attempts every input exactly once
(the success and failure lists partition the inputs), returns the success
list whenever it is non-empty, throws the first recorded error when every
input failed, and returns the empty list when there was no input. -/
theorem execInParallel_spec {α β ε : Type} (inputs : List α)
    (concurrency : Nat) (op : α → Except ε β)
    (hconc : 1 ≤ concurrency) :
    (execSuccesses inputs op).length + (execFailures inputs op).length
        = inputs.length ∧
    (execSuccesses inputs op ≠ [] →
      execInParallel inputs concurrency op = .ok (execSuccesses inputs op)) ∧
    (execSuccesses inputs op = [] →
      ∀ e rest, execFailures inputs op = e :: rest →
        execInParallel inputs concurrency op = .error e) ∧
    (execSuccesses inputs op = [] → execFailures inputs op = [] →
      execInParallel inputs concurrency op = .ok []) := by
  refine ⟨execLengths inputs op, ?_, ?_, ?_⟩
  all_goals
    unfold execInParallel
    rw [execGather_eq]
  · intro hne
    cases hs : execSuccesses inputs op with
    | nil => exact absurd hs hne
    | cons x xs => rfl
  · intro hs e rest hf
    rw [hs, hf]
  · intro hs hf
    rw [hs, hf]

/-- Witness for C2: with concurrency 2 over `[a, b, c]` where only `b`
fails, the batch returns the two successes; when every input fails it
throws the error recorded for `a`. -/
theorem execInParallel_spec_witness :
    1 ≤ 2 ∧
    execInParallel ["a", "b", "c"] 2
        (fun s => if s = "b" then Except.error "boom" else Except.ok s)
      = .ok ["a", "c"] ∧
    execInParallel ["a", "b", "c"] 2
        (fun s : String => (Except.error ("fail " ++ s) : Except String String))
      = .error "fail a" := by
  refine ⟨by decide, ?_, ?_⟩
  · have h := (execInParallel_spec ["a", "b", "c"] 2
      (fun s => if s = "b" then Except.error "boom" else Except.ok s)
      (by decide)).2.1 (by decide)
    rw [h]
    rfl
  · have h := (execInParallel_spec ["a", "b", "c"] 2
      (fun s : String => (Except.error ("fail " ++ s) : Except String String))
      (by decide)).2.2.1 rfl "fail a" ["fail b", "fail c"] rfl
    rw [h]

/-! ### C3: error handling of updateGameData -/

/-- Counterexample to C3: with every fetch and write succeeding but the
lookup rebuild's read of `units` failing, `updateGameData("9.9.9")`
surfaces the error, yet the in-memory version state has already been
replaced by the new version — the previous `VersionState` is not intact. -/
theorem updateGameData_error_mutated_state :
    (updateGameData envRebuildFail stRecorded "9.9.9").1
      = .error "ENOENT: units.json unreadable" ∧
    (updateGameData envRebuildFail stRecorded "9.9.9").2.1.game
      = some "9.9.9" ∧
    (updateGameData envRebuildFail stRecorded "9.9.9").2.1 ≠ stRecorded := by
  refine ⟨rfl, rfl, ?_⟩
  decide

/-- C3 (amended): `updateGameData` never leaves a partially mutated
version state: on any outcome the in-memory `VersionState` is either the
previous one unchanged (every error up to and including the version-record
write) or wholesale replaced by the new version with the written file
list (reached once the version record is persisted, even when the
subsequent lookup rebuild fails — in which case the error is still
surfaced, not retried). -/
theorem updateGameData_state_intact_or_advanced (env : SyncEnv)
    (st : VState) (v : String) :
    (updateGameData env st v).2.1 = st ∨
    ∃ files, (updateGameData env st v).2.1
      = { st with game := some v, gameFiles := some files } := by
  unfold updateGameData
  simp only []
  repeat' split
  all_goals first
    | exact Or.inl rfl
    | exact Or.inr ⟨_, rfl⟩

/-! ### C4: idempotence of updateCheck -/

/-- Counterexample to C4: a first `updateCheck("1.0.0", "2.0.0", false)`
from the empty state succeeds, but because the localization bundle
retained no configured language the localization version was never
recorded; the second call with identical arguments performs another
write (it rewrites the `localizationVersion` record), refuting "zero
additional writes on the second call". -/
theorem updateCheck_second_call_writes :
    (updateCheck envHappy {} "1.0.0" "2.0.0" false).1 = .ok stAfterFirst ∧
    (updateCheck envHappy stAfterFirst "1.0.0" "2.0.0" false).1
      = .ok stAfterFirst ∧
    (updateCheck envHappy stAfterFirst "1.0.0" "2.0.0" false).2.2
      = [FW.locv "2.0.0"] :=
  ⟨rfl, rfl, rfl⟩

/-- C4 (amended): `updateCheck(g, l, force = false)` performs no work —
zero writes, state returned unchanged — whenever the state already
records `g` as game version with a non-empty file list and either records
`l` as localization version or has localization disabled.  (After a
successful first call these conditions hold exactly when the localization
update retained at least one configured language or was already
current/disabled; a bundle with no configured language leaves the
localization version unrecorded and the second call repeats the work.) -/
theorem updateCheck_idempotent_when_recorded (env : SyncEnv) (st : VState)
    (g l : String) (fs : List String)
    (hg : (g == "") = false) (hl : (l == "") = false)
    (hgame : isStringEqual st.game (some g) = true)
    (hfs : st.gameFiles = some fs) (hfsne : fs.isEmpty = false)
    (hlang : isStringEqual st.language (some l) = true ∨
             env.noLocalization = true) :
    updateCheck env st g l false = (.ok st, st, []) := by
  unfold updateCheck
  simp only [hg, hl, Bool.or_false, Bool.false_or, Bool.or_self,
    Bool.false_eq_true, if_false, gameDataNeedsUpdate, hgame, Bool.not_true,
    hfs, hfsne]
  rcases hlang with h | h
  · simp only [localizationNeedsUpdate, h, Bool.not_true, Bool.false_or,
      Bool.false_eq_true, if_false, List.append_nil]
  · simp only [updateLocalizationBundle, h, if_true]
    cases localizationNeedsUpdate st l false <;> simp

/-- Witness for the amended C4: a fully recorded state against the happy
environment, where the repeated call returns the state unchanged with an
empty write trace. -/
theorem updateCheck_idempotent_witness :
    (("1.0.0" == "") = false ∧ ("2.0.0" == "") = false ∧
     isStringEqual stRecorded.game (some "1.0.0") = true ∧
     stRecorded.gameFiles
       = some ["units", "skill", "ability", "equipment", "statMod"] ∧
     (["units", "skill", "ability", "equipment", "statMod"] :
        List String).isEmpty = false ∧
     isStringEqual stRecorded.language (some "2.0.0") = true) ∧
    updateCheck envHappy stRecorded "1.0.0" "2.0.0" false
      = (.ok stRecorded, stRecorded, []) :=
  ⟨⟨rfl, rfl, rfl, rfl, rfl, rfl⟩,
   updateCheck_idempotent_when_recorded envHappy stRecorded "1.0.0" "2.0.0"
     _ rfl rfl rfl rfl rfl (Or.inl rfl)⟩

/-! ### C5: whole-mode persistence of empty collections -/

theorem writeCollsWhole_all_ok (env : SyncEnv) (v : String)
    (hw : ∀ n, env.writeOk n = true) :
    ∀ entries : List (String × List Nat),
      writeCollsWhole env v entries
        = (.ok (entries.map Prod.fst),
           entries.map (fun p => FW.coll p.1 v (env.conv p.2))) := by
  intro entries
  induction entries with
  | nil => rfl
  | cons p rest ih =>
      obtain ⟨key, val⟩ := p
      simp only [writeCollsWhole, writeFileM, fwName, hw, if_true, ih,
        List.map_cons, List.singleton_append]

theorem writeLookupTables_no_coll (env : SyncEnv) :
    ∀ names : List String,
      ((writeLookupTables env names).2).filter isCollWrite = [] := by
  intro names
  induction names with
  | nil => rfl
  | cons n rest ih =>
      cases hrt : writeLookupTables env rest with
      | mk r tr2 =>
          rw [hrt] at ih
          by_cases h : env.writeOk n = true
          · simp only [writeLookupTables, writeFileM, fwName, h, if_true,
              hrt, List.filter_append, ih, List.append_nil]
            rfl
          · simp only [writeLookupTables, writeFileM, fwName,
              Bool.not_eq_true] at h ⊢
            simp only [h, Bool.false_eq_true, if_false]
            rfl

theorem updateCachedData_no_coll (env : SyncEnv) (st : VState) :
    ((updateCachedData env st).2).filter isCollWrite = [] := by
  unfold updateCachedData
  cases h : readAllRebuild env st REBUILD_COLLECTIONS with
  | error e => rfl
  | ok u => exact writeLookupTables_no_coll env LOOKUP_TABLE_FILES

/-- Counterexample to C5: in whole mode, with upstream returning an empty
`skill` collection alongside non-empty ones, the update succeeds, a file
IS written for `skill`, and `skill` IS recorded among the known
collections — whole mode has no empty-collection filter. -/
theorem updateGameData_whole_persists_empty :
    (updateGameData envEmptySkill {} "2.0.0").1 = .ok () ∧
    FW.coll "skill" "2.0.0" [] ∈ (updateGameData envEmptySkill {} "2.0.0").2.2 ∧
    "skill" ∈ ((updateGameData envEmptySkill {} "2.0.0").2.1.gameFiles.getD []) := by
  refine ⟨rfl, ?_, ?_⟩ <;> decide

/-- C5 (amended): in whole fetch mode with all writes succeeding,
`updateGameData(v)` persists EVERY collection entry the upstream returns —
empty ones included — as a versioned document tagged `v`, and the
resulting state records exactly the full list of returned collection
names (the skip-empty filter exists only in the segmented branch). -/
theorem updateGameData_whole_writes_all (env : SyncEnv) (st : VState)
    (v : String) (entries : List (String × List Nat))
    (hseg : env.useSegments = false)
    (hfetch : env.getGameDataWhole v = .ok entries)
    (hw : ∀ n, env.writeOk n = true) :
    (updateGameData env st v).2.1
      = { st with game := some v, gameFiles := some (entries.map Prod.fst) } ∧
    ((updateGameData env st v).2.2).filter isCollWrite
      = entries.map (fun p => FW.coll p.1 v (env.conv p.2)) := by
  have hcolls := writeCollsWhole_all_ok env v hw entries
  have hcd := updateCachedData_no_coll env
    { st with game := some v, gameFiles := some (entries.map Prod.fst) }
  unfold updateGameData
  simp only [hseg, Bool.false_eq_true, if_false, hfetch, hcolls, writeFileM,
    fwName, hw, if_true]
  cases hu : updateCachedData env
      { st with game := some v, gameFiles := some (entries.map Prod.fst) } with
  | mk r tr3 =>
      rw [hu] at hcd
      have hmap : (entries.map (fun p => FW.coll p.1 v (env.conv p.2))).filter
          isCollWrite = entries.map (fun p => FW.coll p.1 v (env.conv p.2)) := by
        rw [List.filter_eq_self]
        intro a ha
        obtain ⟨p, hp, hpa⟩ := List.mem_map.mp ha
        rw [← hpa]
        rfl
      cases r <;>
        simp only [List.filter_append, hmap, hcd, List.append_nil,
          isCollWrite, List.filter_cons, List.filter_nil, Bool.false_eq_true,
          if_false] <;>
        exact ⟨trivial, trivial⟩

/-- Witness for the amended C5: the empty-`skill` upstream run, where the
final state records all five collections including `skill`. -/
theorem updateGameData_whole_writes_all_witness :
    (envEmptySkill.useSegments = false ∧
     envEmptySkill.getGameDataWhole "2.0.0"
       = .ok [("units", [1]), ("skill", []), ("ability", [3]),
              ("equipment", [4]), ("statMod", [5])]) ∧
    (updateGameData envEmptySkill {} "2.0.0").2.1
      = { game := some "2.0.0",
          gameFiles := some ["units", "skill", "ability", "equipment", "statMod"],
          language := none } := by
  refine ⟨⟨rfl, rfl⟩, ?_⟩
  have h := (updateGameData_whole_writes_all envEmptySkill {} "2.0.0"
    [("units", [1]), ("skill", []), ("ability", [3]),
     ("equipment", [4]), ("statMod", [5])] rfl rfl (fun _ => rfl)).1
  rw [h]
  rfl

/-! ### C6, C9: cache lemmas -/

theorem alookup_aset {α : Type} (m : List (String × α)) (k : String) (v : α)
    (k' : String) :
    alookup (aset m k v) k' = if k' = k then some v else alookup m k' := by
  induction m with
  | nil =>
      simp only [aset, alookup]
      by_cases h : k = k'
      · rw [if_pos h, if_pos h.symm]
      · rw [if_neg h, if_neg (fun hh => h hh.symm)]
  | cons p rest ih =>
      obtain ⟨a, b⟩ := p
      simp only [aset, alookup]
      by_cases h1 : a = k
      · rw [if_pos h1]
        simp only [alookup]
        by_cases h2 : k' = k
        · rw [if_pos (h1.trans h2.symm), if_pos h2]
        · rw [if_neg (fun hh : a = k' => h2 (hh.symm.trans h1)),
            if_neg h2, if_neg (fun hh : a = k' => h2 (hh.symm.trans h1))]
      · rw [if_neg h1]
        simp only [alookup]
        by_cases h2 : a = k'
        · rw [if_pos h2, if_neg (fun hh : k' = k => h1 (h2.trans hh)),
            if_pos h2]
        · rw [if_neg h2, ih]
          by_cases h3 : k' = k
          · rw [if_pos h3, if_pos h3]
          · rw [if_neg h3, if_neg h3, if_neg h2]

theorem alookup_aremove {α : Type} (m : List (String × α)) (k k' : String) :
    alookup (aremove m k) k' = if k' = k then none else alookup m k' := by
  induction m with
  | nil => simp [aremove, alookup]
  | cons p rest ih =>
      obtain ⟨a, b⟩ := p
      by_cases h1 : a = k <;> by_cases h2 : a = k' <;>
        simp_all [aremove, alookup, List.filter_cons]

theorem foldl_pickEarlier_none :
    ∀ (l : List Timer) (acc : Option Timer),
      l.foldl pickEarlier acc = none → l = [] ∧ acc = none := by
  intro l
  induction l with
  | nil => exact fun acc h => ⟨rfl, h⟩
  | cons t ts ih =>
      intro acc h
      exfalso
      have hacc := (ih _ h).2
      cases acc with
      | none => simp [pickEarlier] at hacc
      | some b =>
          simp only [pickEarlier] at hacc
          split at hacc <;> exact Option.noConfusion hacc

theorem foldl_pickEarlier_mem :
    ∀ (l : List Timer) (acc : Option Timer) (t : Timer),
      l.foldl pickEarlier acc = some t → t ∈ l ∨ acc = some t := by
  intro l
  induction l with
  | nil => exact fun acc t h => Or.inr h
  | cons x xs ih =>
      intro acc t h
      rcases ih _ t h with hmem | hacc
      · exact Or.inl (List.mem_cons_of_mem _ hmem)
      · cases acc with
        | none =>
            simp only [pickEarlier, Option.some.injEq] at hacc
            exact Or.inl (hacc ▸ List.mem_cons_self x xs)
        | some b =>
            simp only [pickEarlier] at hacc
            split at hacc
            · cases hacc
              exact Or.inl (List.mem_cons_self x xs)
            · exact Or.inr hacc

theorem earliestDue_none (timers : List Timer) (now : Nat)
    (h : earliestDue timers now = none) :
    ∀ t ∈ timers, now < t.fireAt := by
  intro t ht
  by_contra hle
  push_neg at hle
  have hfil := (foldl_pickEarlier_none _ _ h).1
  have htf : t ∈ timers.filter (fun t => t.fireAt ≤ now) :=
    List.mem_filter.mpr ⟨ht, by simpa using hle⟩
  rw [hfil] at htf
  exact absurd htf (List.not_mem_nil t)

theorem earliestDue_mem (timers : List Timer) (now : Nat) (t : Timer)
    (h : earliestDue timers now = some t) :
    t ∈ timers ∧ t.fireAt ≤ now := by
  rcases foldl_pickEarlier_mem _ _ _ h with hmem | hacc
  · have hm := List.mem_filter.mp hmem
    exact ⟨hm.1, by simpa using hm.2⟩
  · exact absurd hacc (by simp)

theorem cacheWf_empty {V : Type} (truthy : V → Bool) :
    CacheWf truthy ({} : CacheState V) := by
  refine ⟨?_, ?_, ?_, ?_, ?_⟩ <;> simp [alookup]

theorem covered_empty {V : Type} (ttl : Nat)
    (sched : List (Nat × CacheOp V)) :
    Covered ttl sched ({} : CacheState V) := by
  intro k v h
  simp [alookup] at h

theorem cacheClearTimeout_wf {V : Type} {truthy : V → Bool}
    {st : CacheState V} (h : CacheWf truthy st) (tid : Nat) :
    CacheWf truthy (cacheClearTimeout st tid) := by
  obtain ⟨h1, h2, h3, h4, h5⟩ := h
  refine ⟨?_, ?_, h3, ?_, h5⟩
  · exact fun t ht => h1 t (List.mem_filter.mp ht).1
  · exact h2.sublist (List.Sublist.map _ (List.filter_sublist _))
  · exact fun k tid' htid t ht => h4 k tid' htid t (List.mem_filter.mp ht).1

theorem cacheRemove_wf {V : Type} {truthy : V → Bool} {st : CacheState V}
    (h : CacheWf truthy st) (k : String) :
    CacheWf truthy (cacheRemove truthy st k) := by
  unfold cacheRemove
  split
  · cases hma : alookup st.timeoutMap k with
    | none =>
        obtain ⟨h1, h2, h3, h4, h5⟩ := h
        refine ⟨h1, h2, h3, h4, ?_⟩
        intro k' v' hv'
        rw [alookup_aremove] at hv'
        by_cases hkk : k' = k
        · rw [if_pos hkk] at hv'; exact Option.noConfusion hv'
        · rw [if_neg hkk] at hv'; exact h5 _ _ hv'
    | some tid =>
        obtain ⟨h1, h2, h3, h4, h5⟩ := h
        refine ⟨?_, ?_, ?_, ?_, ?_⟩
        · exact fun t ht => h1 t (List.mem_filter.mp ht).1
        · exact h2.sublist (List.Sublist.map _ (List.filter_sublist _))
        · intro k' tid' htid
          rw [alookup_aremove] at htid
          by_cases hkk : k' = k
          · rw [if_pos hkk] at htid; exact Option.noConfusion htid
          · rw [if_neg hkk] at htid; exact h3 _ _ htid
        · intro k' tid' htid t ht hid
          rw [alookup_aremove] at htid
          by_cases hkk : k' = k
          · rw [if_pos hkk] at htid; exact Option.noConfusion htid
          · rw [if_neg hkk] at htid
            exact h4 _ _ htid t (List.mem_filter.mp ht).1 hid
        · intro k' v' hv'
          rw [alookup_aremove] at hv'
          by_cases hkk : k' = k
          · rw [if_pos hkk] at hv'; exact Option.noConfusion hv'
          · rw [if_neg hkk] at hv'; exact h5 _ _ hv'
  · exact h

theorem cacheSet_wf {V : Type} {truthy : V → Bool} {st : CacheState V}
    (h : CacheWf truthy st) (ttl now : Nat) (k : String) (v : V) :
    CacheWf truthy (cacheSet truthy ttl now st k v) := by
  unfold cacheSet
  split
  case isTrue hg =>
    have hk : k ≠ "" := by
      rcases Bool.and_eq_true_iff.mp hg with ⟨hk', _⟩
      simpa using hk'
    have hv : truthy v = true := (Bool.and_eq_true_iff.mp hg).2
    unfold scheduleRemoval
    split
    case isTrue httl =>
      obtain ⟨h1, h2, h3, h4, h5⟩ := h
      refine ⟨?_, ?_, ?_, ?_, ?_⟩
      · intro t ht
        rcases List.mem_append.mp ht with hold | hnew
        · exact Nat.lt_succ_of_lt (h1 t hold)
        · simp only [List.mem_singleton] at hnew
          subst hnew
          exact Nat.lt_succ_self _
      · rw [List.map_append]
        refine h2.append (by simp) ?_
        intro a ha hb
        simp only [List.map_cons, List.map_nil, List.mem_singleton] at hb
        subst hb
        obtain ⟨t, ht, hti⟩ := List.mem_map.mp ha
        exact absurd (h1 t ht) (by rw [hti]; exact Nat.lt_irrefl _)
      · intro k' tid htid
        rw [alookup_aset] at htid
        by_cases hkk : k' = k
        · rw [if_pos hkk] at htid
          cases htid
          exact Nat.lt_succ_self _
        · rw [if_neg hkk] at htid
          exact Nat.lt_succ_of_lt (h3 _ _ htid)
      · intro k' tid htid t ht hid
        rw [alookup_aset] at htid
        rcases List.mem_append.mp ht with hold | hnew
        · by_cases hkk : k' = k
          · rw [if_pos hkk] at htid
            cases htid
            exact absurd (h1 t hold) (by rw [hid]; exact Nat.lt_irrefl _)
          · rw [if_neg hkk] at htid
            exact h4 _ _ htid t hold hid
        · simp only [List.mem_singleton] at hnew
          subst hnew
          by_cases hkk : k' = k
          · rw [hkk]
          · rw [if_neg hkk] at htid
            exact absurd (h3 _ _ htid) (by simp at hid; omega)
      · intro k' v' hv'
        rw [alookup_aset] at hv'
        by_cases hkk : k' = k
        · rw [if_pos hkk] at hv'
          cases hv'
          exact ⟨hv, hkk ▸ hk⟩
        · rw [if_neg hkk] at hv'
          exact h5 _ _ hv'
    case isFalse httl =>
      obtain ⟨h1, h2, h3, h4, h5⟩ := h
      refine ⟨h1, h2, h3, h4, ?_⟩
      intro k' v' hv'
      rw [alookup_aset] at hv'
      by_cases hkk : k' = k
      · rw [if_pos hkk] at hv'
        cases hv'
        exact ⟨hv, hkk ▸ hk⟩
      · rw [if_neg hkk] at hv'
        exact h5 _ _ hv'
  case isFalse hg => exact h

theorem cacheSet_covered {V : Type} {truthy : V → Bool} {ttl : Nat}
    {sched : List (Nat × CacheOp V)} {st : CacheState V}
    (hcov : Covered ttl sched st) (httl : 0 < ttl) (now : Nat)
    (k : String) (v : V) (hop : (now, CacheOp.set k v) ∈ sched) :
    Covered ttl sched (cacheSet truthy ttl now st k v) := by
  unfold cacheSet
  split
  case isTrue hg =>
    unfold scheduleRemoval
    rw [if_pos httl]
    intro k' v' hv'
    rw [alookup_aset] at hv'
    by_cases hkk : k' = k
    · subst hkk
      rw [if_pos rfl] at hv'
      cases hv'
      refine ⟨⟨st.nextId, now + ttl, k'⟩, ?_, rfl, now, hop, le_refl _⟩
      exact List.mem_append.mpr (Or.inr (List.mem_singleton.mpr rfl))
    · rw [if_neg hkk] at hv'
      obtain ⟨t, ht, hkey, τ, hτ, hfire⟩ := hcov _ _ hv'
      exact ⟨t, List.mem_append.mpr (Or.inl ht), hkey, τ, hτ, hfire⟩
  case isFalse hg => exact hcov

theorem cacheRemove_covered {V : Type} {truthy : V → Bool} {ttl : Nat}
    {sched : List (Nat × CacheOp V)} {st : CacheState V}
    (hwf : CacheWf truthy st) (hcov : Covered ttl sched st) (k0 : String) :
    Covered ttl sched (cacheRemove truthy st k0) := by
  unfold cacheRemove
  split
  case isTrue hg =>
    cases hma : alookup st.timeoutMap k0 with
    | none =>
        intro k' v' hv'
        rw [alookup_aremove] at hv'
        by_cases hkk : k' = k0
        · rw [if_pos hkk] at hv'; exact Option.noConfusion hv'
        · rw [if_neg hkk] at hv'
          exact hcov _ _ hv'
    | some tid =>
        intro k' v' hv'
        rw [alookup_aremove] at hv'
        by_cases hkk : k' = k0
        · rw [if_pos hkk] at hv'; exact Option.noConfusion hv'
        · rw [if_neg hkk] at hv'
          obtain ⟨t, ht, hkey, τ, hτ, hfire⟩ := hcov _ _ hv'
          refine ⟨t, List.mem_filter.mpr ⟨ht, ?_⟩, hkey, τ, hτ, hfire⟩
          have hne : t.id ≠ tid := fun hid =>
            hkk (hkey ▸ hwf.tmap_key _ _ hma t ht hid)
          simpa using hne
  case isFalse hg => exact hcov

theorem fireStep_covered {V : Type} {truthy : V → Bool} {ttl : Nat}
    {sched : List (Nat × CacheOp V)} {st : CacheState V} {t0 : Timer}
    (hwf : CacheWf truthy st) (ht0 : t0 ∈ st.timers)
    (hcov : Covered ttl sched st) :
    Covered ttl sched
      (cacheRemove truthy (cacheClearTimeout st t0.id) t0.key) := by
  have survives1 : ∀ t ∈ st.timers, t.key ≠ t0.key →
      t ∈ (cacheClearTimeout st t0.id).timers := by
    intro t ht hkne
    refine List.mem_filter.mpr ⟨ht, ?_⟩
    have hne : t.id ≠ t0.id := by
      intro hid
      exact hkne (by
        rw [List.inj_on_of_nodup_map hwf.ids_nodup ht ht0 hid])
    simpa using hne
  unfold cacheRemove
  split
  case isTrue hg =>
    cases hma : alookup (cacheClearTimeout st t0.id).timeoutMap t0.key with
    | none =>
        intro k' v' hv'
        rw [alookup_aremove] at hv'
        by_cases hkk : k' = t0.key
        · rw [if_pos hkk] at hv'; exact Option.noConfusion hv'
        · rw [if_neg hkk] at hv'
          obtain ⟨t, ht, hkey, τ, hτ, hfire⟩ := hcov _ _ hv'
          exact ⟨t, survives1 t ht (hkey ▸ hkk), hkey, τ, hτ, hfire⟩
    | some tid =>
        intro k' v' hv'
        rw [alookup_aremove] at hv'
        by_cases hkk : k' = t0.key
        · rw [if_pos hkk] at hv'; exact Option.noConfusion hv'
        · rw [if_neg hkk] at hv'
          obtain ⟨t, ht, hkey, τ, hτ, hfire⟩ := hcov _ _ hv'
          refine ⟨t, List.mem_filter.mpr ⟨survives1 t ht (hkey ▸ hkk), ?_⟩,
            hkey, τ, hτ, hfire⟩
          have hne : t.id ≠ tid := fun hid =>
            hkk (hkey ▸ hwf.tmap_key _ _ hma t
              (List.mem_filter.mp (survives1 t ht (hkey ▸ hkk))).1 hid)
          simpa using hne
  case isFalse hg =>
    intro k' v' hv'
    by_cases hkk : k' = t0.key
    · exfalso
      subst hkk
      obtain ⟨htr, hne⟩ := hwf.vals _ _ hv'
      apply hg
      rw [hv']
      simp [htr, hne]
    · obtain ⟨t, ht, hkey, τ, hτ, hfire⟩ := hcov _ _ hv'
      exact ⟨t, survives1 t ht (hkey ▸ hkk), hkey, τ, hτ, hfire⟩

theorem fireDue_wf {V : Type} {truthy : V → Bool} :
    ∀ (fuel : Nat) (st : CacheState V) (now : Nat),
      CacheWf truthy st → CacheWf truthy (fireDue truthy fuel st now) := by
  intro fuel
  induction fuel with
  | zero => exact fun st now h => h
  | succ fuel ih =>
      intro st now h
      simp only [fireDue]
      cases hed : earliestDue st.timers now with
      | none => exact h
      | some t0 =>
          exact ih _ now (cacheRemove_wf (cacheClearTimeout_wf h t0.id) t0.key)

theorem fireDue_covered {V : Type} {truthy : V → Bool} {ttl : Nat}
    {sched : List (Nat × CacheOp V)} :
    ∀ (fuel : Nat) (st : CacheState V) (now : Nat),
      CacheWf truthy st → Covered ttl sched st →
      Covered ttl sched (fireDue truthy fuel st now) := by
  intro fuel
  induction fuel with
  | zero => exact fun st now _ hc => hc
  | succ fuel ih =>
      intro st now h hc
      simp only [fireDue]
      cases hed : earliestDue st.timers now with
      | none => exact hc
      | some t0 =>
          have ht0 := (earliestDue_mem _ _ _ hed).1
          exact ih _ now (cacheRemove_wf (cacheClearTimeout_wf h t0.id) t0.key)
            (fireStep_covered h ht0 hc)

theorem filter_length_lt_of_mem {α : Type} {l : List α} {a : α}
    {p : α → Bool} (ha : a ∈ l) (hpa : p a = false) :
    (l.filter p).length < l.length := by
  induction l with
  | nil => cases ha
  | cons x xs ih =>
      rcases List.mem_cons.mp ha with rfl | hmem
      · rw [List.filter_cons, hpa]
        exact Nat.lt_succ_of_le (List.length_filter_le _ _)
      · rw [List.filter_cons]
        cases hpx : p x
        · simp only [Bool.false_eq_true, if_false, List.length_cons]
          exact Nat.lt_succ_of_lt (ih hmem)
        · simp only [if_true, List.length_cons]
          exact Nat.succ_lt_succ (ih hmem)

theorem cacheRemove_timers_length_le {V : Type} (truthy : V → Bool)
    (st : CacheState V) (k : String) :
    (cacheRemove truthy st k).timers.length ≤ st.timers.length := by
  unfold cacheRemove
  split
  · cases alookup st.timeoutMap k with
    | none => exact le_refl _
    | some tid => exact List.length_filter_le _ _
  · exact le_refl _

theorem fireDue_no_due {V : Type} {truthy : V → Bool} :
    ∀ (fuel : Nat) (st : CacheState V) (now : Nat),
      st.timers.length ≤ fuel →
      ∀ t ∈ (fireDue truthy fuel st now).timers, now < t.fireAt := by
  intro fuel
  induction fuel with
  | zero =>
      intro st now hlen t ht
      have h0 : st.timers = [] :=
        List.length_eq_zero.mp (Nat.le_zero.mp hlen)
      simp only [fireDue] at ht
      rw [h0] at ht
      cases ht
  | succ fuel ih =>
      intro st now hlen t ht
      simp only [fireDue] at ht
      cases hed : earliestDue st.timers now with
      | none =>
          rw [hed] at ht
          exact earliestDue_none _ _ hed t ht
      | some t0 =>
          rw [hed] at ht
          obtain ⟨ht0, _⟩ := earliestDue_mem _ _ _ hed
          refine ih _ now ?_ t ht
          have hlt : (cacheClearTimeout st t0.id).timers.length
              < st.timers.length :=
            filter_length_lt_of_mem ht0 (by simp)
          have hle := cacheRemove_timers_length_le truthy
            (cacheClearTimeout st t0.id) t0.key
          omega

theorem runCache_invariants {V : Type} {truthy : V → Bool} {ttl : Nat}
    {sched : List (Nat × CacheOp V)} (httl : 0 < ttl) :
    ∀ (rest : List (Nat × CacheOp V)) (st : CacheState V) (horizon : Nat),
      (∀ x ∈ rest, x ∈ sched) →
      (∀ x ∈ rest, isExtend x.2 = false) →
      CacheWf truthy st → Covered ttl sched st →
      CacheWf truthy (runCache truthy ttl st rest horizon) ∧
      Covered ttl sched (runCache truthy ttl st rest horizon) ∧
      (∀ t ∈ (runCache truthy ttl st rest horizon).timers,
        horizon < t.fireAt) := by
  intro rest
  induction rest with
  | nil =>
      intro st horizon _ _ hwf hcov
      simp only [runCache]
      exact ⟨fireDue_wf _ _ _ hwf, fireDue_covered _ _ _ hwf hcov,
        fireDue_no_due _ _ _ (le_refl _)⟩
  | cons x rest ih =>
      obtain ⟨τ, op⟩ := x
      intro st horizon hsub hext hwf hcov
      simp only [runCache]
      have hwf1 : CacheWf truthy (fireDue truthy st.timers.length st τ) :=
        fireDue_wf _ _ _ hwf
      have hcov1 : Covered ttl sched (fireDue truthy st.timers.length st τ) :=
        fireDue_covered _ _ _ hwf hcov
      cases op with
      | set k v =>
          exact ih _ horizon (fun y hy => hsub y (List.mem_cons_of_mem _ hy))
            (fun y hy => hext y (List.mem_cons_of_mem _ hy))
            (cacheSet_wf hwf1 ttl τ k v)
            (cacheSet_covered hcov1 httl τ k v
              (hsub _ (List.mem_cons_self _ _)))
      | remove k =>
          exact ih _ horizon (fun y hy => hsub y (List.mem_cons_of_mem _ hy))
            (fun y hy => hext y (List.mem_cons_of_mem _ hy))
            (cacheRemove_wf hwf1 k)
            (cacheRemove_covered hwf1 hcov1 k)
      | extend k =>
          exact absurd (hext _ (List.mem_cons_self _ _)) (by simp [isExtend])

theorem cacheGet_some {V : Type} {truthy : V → Bool} {st : CacheState V}
    {k : String} {v : V} (h : cacheGet truthy st k = some v) :
    alookup st.keyVal k = some v ∧ truthy v = true ∧ k ≠ "" := by
  unfold cacheGet at h
  by_cases hk : k ≠ ""
  · rw [if_pos hk] at h
    cases hal : alookup st.keyVal k with
    | none => rw [hal] at h; exact Option.noConfusion h
    | some v0 =>
        rw [hal] at h
        by_cases htr : truthy v0 = true
        · simp only [htr, if_true] at h
          injection h with hv
          subst hv
          exact ⟨rfl, htr, hk⟩
        · simp only [if_neg htr] at h
          exact Option.noConfusion h
  · rw [if_neg hk] at h
    exact Option.noConfusion h

theorem cacheGet_of_alookup {V : Type} {truthy : V → Bool}
    {st : CacheState V} {k : String} {v : V} (hk : k ≠ "")
    (hal : alookup st.keyVal k = some v) (htr : truthy v = true) :
    cacheGet truthy st k = some v := by
  unfold cacheGet
  rw [if_pos hk, hal]
  simp only [htr, if_true]

/-- Counterexample to C6: with TTL 10, `set("k", 1)` at time 0 followed by
`set("k", 2)` at time 5 — no explicit remove — the entry is already gone
at time 12, earlier than the 15 the claim's "restarts its timer" promises:
the timer from the first insertion fired at 10 and removed the re-set
value (and cancelled the newer timer with it). -/
theorem cache_reset_removed_early :
    cacheGet natTruthy
        (runCache natTruthy 10 {} [(0, .set "k" 1), (5, .set "k" 2)] 12) "k"
      = none ∧ 12 < 5 + 10 :=
  ⟨by decide, by decide⟩

/-- C6 (amended): with a finite positive TTL `t` and no extend operations,
any entry readable at the horizon was `set` less than `t` ago — an entry
is removed automatically no later than `t` after its LAST insertion.  A
fresh `set` on a live key replaces the value and schedules an additional
timer but does NOT cancel the earlier insertion's pending timer, so the
entry can be removed as early as `t` after an EARLIER insertion of the
same key (see the counterexample); early removal otherwise requires an
explicit remove. -/
theorem cache_entry_expires_by_ttl {V : Type} (truthy : V → Bool)
    (ttl : Nat) (sched : List (Nat × CacheOp V)) (horizon : Nat)
    (k : String) (v : V)
    (httl : 0 < ttl)
    (hnoext : sched.all (fun x => !isExtend x.2) = true)
    (hget : cacheGet truthy (runCache truthy ttl {} sched horizon) k
      = some v) :
    ∃ τ, (τ, CacheOp.set k v) ∈ sched ∧ horizon < τ + ttl := by
  have hext : ∀ x ∈ sched, isExtend x.2 = false := by
    intro x hx
    have hx' := List.all_eq_true.mp hnoext x hx
    simpa using hx'
  obtain ⟨hwf, hcov, hdue⟩ :=
    @runCache_invariants V truthy ttl sched httl sched {}
      horizon (fun y hy => hy) hext (cacheWf_empty truthy)
      (covered_empty ttl sched)
  obtain ⟨hal, htr, hk⟩ := cacheGet_some hget
  obtain ⟨t, ht, hkey, τ, hτ, hfire⟩ := hcov _ _ hal
  exact ⟨τ, hτ, lt_of_lt_of_le (hdue t ht) hfire⟩

/-- Witness for the amended C6: one `set("k", 5)` at time 0, read back at
horizon 3, certifies an insertion within the last 10 milliseconds. -/
theorem cache_entry_expires_by_ttl_witness :
    (0 < 10 ∧
     ([(0, CacheOp.set "k" (5 : Nat))].all (fun x => !isExtend x.2)
       = true) ∧
     cacheGet natTruthy
         (runCache natTruthy 10 {} [(0, CacheOp.set "k" 5)] 3) "k"
       = some 5) ∧
    ∃ τ, (τ, CacheOp.set "k" (5 : Nat)) ∈ [(0, CacheOp.set "k" (5 : Nat))] ∧
      3 < τ + 10 :=
  ⟨⟨by decide, by decide, by decide⟩,
   cache_entry_expires_by_ttl natTruthy 10 [(0, CacheOp.set "k" 5)] 3 "k" 5
     (by decide) (by decide) (by decide)⟩

/-! ### C9: the double-keyed player cache -/

theorem cacheRemove_timers_subset {V : Type} (truthy : V → Bool)
    (s : CacheState V) (k : String) :
    ∀ t ∈ (cacheRemove truthy s k).timers, t ∈ s.timers := by
  unfold cacheRemove
  split
  · cases alookup s.timeoutMap k with
    | none => exact fun t ht => ht
    | some tid => exact fun t ht => (List.mem_filter.mp ht).1
  · exact fun t ht => ht

theorem cacheRemove_keyVal_other {V : Type} (truthy : V → Bool)
    (s : CacheState V) (k0 k : String) (hk : k ≠ k0) :
    alookup (cacheRemove truthy s k0).keyVal k = alookup s.keyVal k := by
  unfold cacheRemove
  split
  · cases alookup s.timeoutMap k0 with
    | none => rw [alookup_aremove, if_neg hk]
    | some tid => rw [alookup_aremove, if_neg hk]
  · rfl

theorem fireDue_untouched {V : Type} {truthy : V → Bool} :
    ∀ (fuel : Nat) (st : CacheState V) (now : Nat) (k : String),
      CacheWf truthy st →
      (∀ t ∈ st.timers, t.key = k → now < t.fireAt) →
      alookup (fireDue truthy fuel st now).keyVal k
        = alookup st.keyVal k := by
  intro fuel
  induction fuel with
  | zero => intro st now k _ _; rfl
  | succ fuel ih =>
      intro st now k hwf hbound
      simp only [fireDue]
      cases hed : earliestDue st.timers now with
      | none => rfl
      | some t0 =>
          obtain ⟨ht0, hdue⟩ := earliestDue_mem _ _ _ hed
          have hkne : t0.key ≠ k := fun hh =>
            absurd hdue (not_le.mpr (hbound t0 ht0 hh))
          have hsub : ∀ t ∈ (cacheRemove truthy (cacheClearTimeout st t0.id)
              t0.key).timers, t ∈ st.timers := fun t ht =>
            (List.mem_filter.mp (cacheRemove_timers_subset _ _ _ t ht)).1
          rw [ih _ now k
            (cacheRemove_wf (cacheClearTimeout_wf hwf t0.id) t0.key)
            (fun t ht hk => hbound t (hsub t ht) hk)]
          exact cacheRemove_keyVal_other truthy _ t0.key k
            (fun hh => hkne hh.symm)

theorem cacheSet_eval {V : Type} (truthy : V → Bool) (ttl now : Nat)
    (st : CacheState V) (k : String) (v : V) (hk : k ≠ "")
    (hv : truthy v = true) (httl : 0 < ttl) :
    cacheSet truthy ttl now st k v =
      { keyVal := aset st.keyVal k v,
        timeoutMap := aset st.timeoutMap k st.nextId,
        timers := st.timers ++ [⟨st.nextId, now + ttl, k⟩],
        nextId := st.nextId + 1 } := by
  unfold cacheSet scheduleRemoval
  rw [if_pos (by simp [hk, hv]), if_pos httl]

/-- C9: after a miss in `_getOrFetchCachedPlayer` (lookup by a truthy ally
code), the record fetched from upstream is inserted under both its own
`allyCode` and its own `playerId`, exactly one upstream fetch is made, and
both identifiers then resolve to the identical record.  Moreover, at any
instant before the inserted entries' timers fall due (strictly earlier
than `now + ttl`; no pre-existing timers for those keys), however many due
timers fire, a lookup by either identifier still returns the identical
cached record with zero upstream fetches and leaves the cache unchanged. -/
theorem getOrFetchCachedPlayer_spec (ttl now horizon : Nat)
    (st : CacheState Player) (p : Player) (a : String)
    (httl : 0 < ttl)
    (hwf : CacheWf playerTruthy st)
    (hfresh : ∀ t ∈ st.timers, t.key ≠ p.allyCode ∧ t.key ≠ p.playerId)
    (ha : p.allyCode ≠ "") (hp : p.playerId ≠ "")
    (haq : a ≠ "")
    (hmiss : cacheGet playerTruthy st a = none)
    (hhor : horizon < now + ttl) :
    ∃ st2,
      getOrFetchCachedPlayer ttl now st (some a) none (.ok p)
        = (.ok p, st2, 1) ∧
      cacheGet playerTruthy st2 p.allyCode = some p ∧
      cacheGet playerTruthy st2 p.playerId = some p ∧
      ∀ fuel : Nat,
        cacheGet playerTruthy (fireDue playerTruthy fuel st2 horizon)
            p.allyCode = some p ∧
        cacheGet playerTruthy (fireDue playerTruthy fuel st2 horizon)
            p.playerId = some p ∧
        getOrFetchCachedPlayer ttl horizon
            (fireDue playerTruthy fuel st2 horizon) (some p.allyCode) none
            (.error "no fetch")
          = (.ok p, fireDue playerTruthy fuel st2 horizon, 0) ∧
        getOrFetchCachedPlayer ttl horizon
            (fireDue playerTruthy fuel st2 horizon) none (some p.playerId)
            (.error "no fetch")
          = (.ok p, fireDue playerTruthy fuel st2 horizon, 0) := by
  have hrec : cacheSet playerTruthy ttl now
      (cacheSet playerTruthy ttl now st p.allyCode p) p.playerId p =
      { keyVal := aset (aset st.keyVal p.allyCode p) p.playerId p,
        timeoutMap := aset (aset st.timeoutMap p.allyCode st.nextId)
          p.playerId (st.nextId + 1),
        timers := (st.timers ++ [⟨st.nextId, now + ttl, p.allyCode⟩])
          ++ [⟨st.nextId + 1, now + ttl, p.playerId⟩],
        nextId := st.nextId + 2 } := by
    rw [cacheSet_eval playerTruthy ttl now st p.allyCode p ha rfl httl,
        cacheSet_eval playerTruthy ttl now _ p.playerId p hp rfl httl]
  refine ⟨cacheSet playerTruthy ttl now
    (cacheSet playerTruthy ttl now st p.allyCode p) p.playerId p,
    ?_, ?_, ?_, ?_⟩
  · unfold getOrFetchCachedPlayer
    simp only [if_pos haq, hmiss]
  · exact cacheGet_of_alookup ha (by
      rw [hrec]
      show alookup (aset (aset st.keyVal p.allyCode p) p.playerId p)
        p.allyCode = some p
      rw [alookup_aset]
      by_cases hdup : p.allyCode = p.playerId
      · rw [if_pos hdup]
      · rw [if_neg hdup, alookup_aset, if_pos rfl]) rfl
  · exact cacheGet_of_alookup hp (by
      rw [hrec]
      show alookup (aset (aset st.keyVal p.allyCode p) p.playerId p)
        p.playerId = some p
      rw [alookup_aset, if_pos rfl]) rfl
  · have hwf2 : CacheWf playerTruthy (cacheSet playerTruthy ttl now
        (cacheSet playerTruthy ttl now st p.allyCode p) p.playerId p) :=
      cacheSet_wf (cacheSet_wf hwf ttl now p.allyCode p) ttl now p.playerId p
    have hala : alookup (cacheSet playerTruthy ttl now
        (cacheSet playerTruthy ttl now st p.allyCode p) p.playerId p).keyVal
        p.allyCode = some p := by
      rw [hrec]
      show alookup (aset (aset st.keyVal p.allyCode p) p.playerId p)
        p.allyCode = some p
      rw [alookup_aset]
      by_cases hdup : p.allyCode = p.playerId
      · rw [if_pos hdup]
      · rw [if_neg hdup, alookup_aset, if_pos rfl]
    have halp : alookup (cacheSet playerTruthy ttl now
        (cacheSet playerTruthy ttl now st p.allyCode p) p.playerId p).keyVal
        p.playerId = some p := by
      rw [hrec]
      show alookup (aset (aset st.keyVal p.allyCode p) p.playerId p)
        p.playerId = some p
      rw [alookup_aset, if_pos rfl]
    have hbound_a : ∀ t ∈ (cacheSet playerTruthy ttl now
        (cacheSet playerTruthy ttl now st p.allyCode p) p.playerId p).timers,
        t.key = p.allyCode → horizon < t.fireAt := by
      rw [hrec]
      intro t ht _
      rcases List.mem_append.mp ht with h' | h'
      · rcases List.mem_append.mp h' with h'' | h''
        · exact absurd (by assumption) (hfresh t h'').1
        · simp only [List.mem_singleton] at h''
          subst h''
          simpa using hhor
      · simp only [List.mem_singleton] at h'
        subst h'
        simpa using hhor
    have hbound_p : ∀ t ∈ (cacheSet playerTruthy ttl now
        (cacheSet playerTruthy ttl now st p.allyCode p) p.playerId p).timers,
        t.key = p.playerId → horizon < t.fireAt := by
      rw [hrec]
      intro t ht _
      rcases List.mem_append.mp ht with h' | h'
      · rcases List.mem_append.mp h' with h'' | h''
        · exact absurd (by assumption) (hfresh t h'').2
        · simp only [List.mem_singleton] at h''
          subst h''
          simpa using hhor
      · simp only [List.mem_singleton] at h'
        subst h'
        simpa using hhor
    intro fuel
    have hua := fireDue_untouched fuel _ horizon p.allyCode hwf2 hbound_a
    have hup := fireDue_untouched fuel _ horizon p.playerId hwf2 hbound_p
    have hgl_a : cacheGet playerTruthy (fireDue playerTruthy fuel
        (cacheSet playerTruthy ttl now (cacheSet playerTruthy ttl now st
          p.allyCode p) p.playerId p) horizon) p.allyCode = some p :=
      cacheGet_of_alookup ha (by rw [hua]; exact hala) rfl
    have hgl_p : cacheGet playerTruthy (fireDue playerTruthy fuel
        (cacheSet playerTruthy ttl now (cacheSet playerTruthy ttl now st
          p.allyCode p) p.playerId p) horizon) p.playerId = some p :=
      cacheGet_of_alookup hp (by rw [hup]; exact halp) rfl
    refine ⟨hgl_a, hgl_p, ?_, ?_⟩
    · unfold getOrFetchCachedPlayer
      simp only [if_pos ha, hgl_a]
    · unfold getOrFetchCachedPlayer
      simp only [if_pos hp, hgl_p]

/-- Witness for C9: an empty cache, a miss on ally code `123`, and the
record inserted under both identifiers. -/
theorem getOrFetchCachedPlayer_spec_witness :
    (0 < 10 ∧ (("123" : String) ≠ "") ∧ (("PID1" : String) ≠ "") ∧
     cacheGet playerTruthy ({} : CacheState Player) "123" = none ∧
     (9 : Nat) < 0 + 10) ∧
    ∃ st2, getOrFetchCachedPlayer 10 0 {} (some "123") none
        (.ok ⟨"123", "PID1", 7⟩) = (.ok ⟨"123", "PID1", 7⟩, st2, 1) ∧
      cacheGet playerTruthy st2 "123" = some ⟨"123", "PID1", 7⟩ ∧
      cacheGet playerTruthy st2 "PID1" = some ⟨"123", "PID1", 7⟩ := by
  refine ⟨⟨by decide, by decide, by decide, rfl, by decide⟩, ?_⟩
  obtain ⟨st2, h1, h2, h3, _⟩ :=
    getOrFetchCachedPlayer_spec 10 0 9 {} ⟨"123", "PID1", 7⟩ "123"
      (by decide) (cacheWf_empty playerTruthy)
      (fun t ht => absurd ht (by simp)) (by decide) (by decide) (by decide)
      rfl (by decide)
  exact ⟨st2, h1, h2, h3⟩

end FakeHelp
